import Mathlib

/-!
Verification of the CampbellViewer ingestion engine specification.

This file gives a shallow embedding, in Lean, of the parts of the
CampbellViewer repository that the specification talks about:

- the Python string primitives used by the readers (character-exact
  models of str.split, str.strip, negative indexing, int() and float()
  conversion, where numeric values are modelled by rationals);
- the participation-string parser of the Bladed readers;
- the HAWCStab2 tabular readers (read_cmb_data, read_amp_data,
  read_opt_data) over an abstract file system;
- the Bladed version dispatch and the 4.7/4.8 operational-data fallback;
- the default Campbell participation linkage (interfaces/bladed.py)
  and the legacy triple-intersection linkage of BladedLin_lib.py with
  its dynamically growing participation-mode registry;
- the AEMode plain-text serialization and the database save step.

Fallible Python code (exceptions) is modelled with Option.
-/

namespace CampbellViewer

/-! ## Python string primitives -/

/-- Whitespace test matching the characters Python's str.split() splits on
(for the character sets that occur in the data files). -/
def isWs (c : Char) : Bool :=
  c == ' ' || c == '\t' || c == '\n' || c == '\r'

/-- Python str.split(sep) for a single-character separator: empty chunks are
kept, and the empty string yields one empty chunk. -/
def pySplitChar (sep : Char) : List Char → List (List Char)
  | [] => [[]]
  | c :: cs =>
    if c = sep then [] :: pySplitChar sep cs
    else
      match pySplitChar sep cs with
      | [] => [[c]]
      | t :: ts => (c :: t) :: ts

/-- Helper for Python str.split() with no argument: accumulates the current
token (reversed) and splits on whitespace runs, discarding empty tokens. -/
def wsSplitAux : List Char → List Char → List (List Char)
  | [], acc => if acc.isEmpty then [] else [acc.reverse]
  | c :: cs, acc =>
    if isWs c then
      if acc.isEmpty then wsSplitAux cs [] else acc.reverse :: wsSplitAux cs []
    else wsSplitAux cs (c :: acc)

/-- Python str.split() with no argument. -/
def wsSplit (cs : List Char) : List (List Char) := wsSplitAux cs []

/-- Python str.strip(chars): remove leading and trailing characters that are
members of the given set. -/
def pyStrip (chars : List Char) (cs : List Char) : List Char :=
  ((cs.dropWhile (fun c => chars.contains c)).reverse.dropWhile
    (fun c => chars.contains c)).reverse

/-- Python sequence indexing with possibly negative index; none models an
IndexError. -/
def pyIdx {α : Type} (l : List α) (i : Int) : Option α :=
  if 0 ≤ i then l.get? i.toNat
  else if (-i).toNat ≤ l.length then l.get? (l.length - (-i).toNat)
  else none

/-- Value of a nonempty all-digit character list; none models a ValueError. -/
def digitsToNat : List Char → Option ℕ
  | [] => none
  | ds =>
    if ds.all Char.isDigit then
      some (ds.foldl (fun n c => 10 * n + (c.toNat - 48)) 0)
    else none

/-- Python int(str) on the strings occurring in version numbers: optional
surrounding whitespace, optional sign, then decimal digits. -/
def pyIntOfChars (cs : List Char) : Option Int :=
  let t := ((cs.dropWhile isWs).reverse.dropWhile isWs).reverse
  match t with
  | '-' :: ds => (digitsToNat ds).map (fun n => -(n : Int))
  | '+' :: ds => (digitsToNat ds).map (fun n => (n : Int))
  | ds => (digitsToNat ds).map (fun n => (n : Int))

/-- Unchecked decimal value of a digit list (0 for the empty list). -/
def digitsVal (ds : List Char) : ℕ :=
  ds.foldl (fun n c => 10 * n + (c.toNat - 48)) 0

/-- Python float(str) on plain decimal literals (optional sign, integer part,
optional fractional part), modelled exactly over the rationals; none models a
ValueError. Exponent notation does not occur in the participation strings. -/
def pyFloatOfChars (cs : List Char) : Option ℚ :=
  let sgn : ℚ := match cs with
    | '-' :: _ => -1
    | _ => 1
  let t : List Char := match cs with
    | '-' :: r => r
    | '+' :: r => r
    | r => r
  let ip := t.takeWhile Char.isDigit
  let rest := t.drop ip.length
  match rest with
  | [] => if ip.isEmpty then none else some (sgn * (digitsVal ip : ℚ))
  | '.' :: fp =>
    if fp.all Char.isDigit && (!ip.isEmpty || !fp.isEmpty) then
      some (sgn * ((digitsVal ip : ℚ) + (digitsVal fp : ℚ) / (10 : ℚ) ^ fp.length))
    else none
  | _ => none

/-! ## Participation-string parsing

Embeds the parsing statements of interfaces/bladed.py, read_cmb_data
(and identically BladedLin_lib.py, read_additional_cmb_data):

for p_str in particip_str.strip(', ').split(','):
    uncoupled_mode_name = ' '.join(p_str.split()[:-2])
    ampl = float(p_str.split()[-2][:-1]) / 100
    phase = float(p_str.split()[-1][:-1])
-/

/-- One parsed participation record: uncoupled-mode name, amplitude ratio,
phase in degrees. -/
structure PartRecord where
  name : List Char
  ampl : ℚ
  phase : ℚ
deriving DecidableEq

/-- The uncoupled-mode name of one comma-chunk: all whitespace tokens except
the last two, joined by single spaces. This step never raises. -/
def participNameOf (pstr : List Char) : List Char :=
  List.intercalate [' '] ((wsSplit pstr).take ((wsSplit pstr).length - 2))

/-- Parse one comma-chunk of a participation string; none models the
IndexError or ValueError Python would raise on a malformed chunk. -/
def parsePartRecord (pstr : List Char) : Option PartRecord := do
  let toks := wsSplit pstr
  let ampTok ← pyIdx toks (-2)
  let phTok ← pyIdx toks (-1)
  let a ← pyFloatOfChars (ampTok.take (ampTok.length - 1))
  let p ← pyFloatOfChars (phTok.take (phTok.length - 1))
  pure ⟨participNameOf pstr, a / 100, p⟩

/-- Strip trailing (and leading) commas and spaces, then split on commas. -/
def splitParticipStr (s : List Char) : List (List Char) :=
  pySplitChar ',' (pyStrip [',', ' '] s)

/-- Parse a whole participation string into records; none models a raised
exception on any chunk. -/
def parseParticipStr (s : List Char) : Option (List PartRecord) :=
  (splitParticipStr s).mapM parsePartRecord

end CampbellViewer

namespace CampbellViewer

/-- C2 counterexample: the claimed example string has a comma between each
amplitude and phase, so str.split(',') separates every triple into two
chunks; on the chunk "Tower FA 45.3%" the amplitude token is "FA", whose
percent-stripped form "F" makes float() raise, so the string does not parse
to the two claimed records (the parser raises instead). -/
theorem particip_scenarioB_as_claimed_fails :
    parseParticipStr ("Tower FA 45.3%, 12.1°,Tower SS 3.0%, -90.0°".data) = none := by
  decide

/-- C2 (amended): with the comma separating only the triples, the string
"Tower FA 45.3% 12.1°,Tower SS 3.0% -90.0°" parses to exactly the records
("Tower FA", 0.453, 12.1) and ("Tower SS", 0.030, -90.0). -/
theorem particip_scenarioB_amended :
    parseParticipStr ("Tower FA 45.3% 12.1°,Tower SS 3.0% -90.0°".data) =
      some [⟨"Tower FA".data, 453/1000, 121/10⟩, ⟨"Tower SS".data, 3/100, -90⟩] := by
  with_unfolding_all rfl

end CampbellViewer

namespace CampbellViewer

/-! ## AEMode (utilities.py) and its plain-text round trip -/

/-- Storage class for aeroelastic modes (utilities.py, class AEMode): a name
and three classification tags, all plain strings. -/
structure AEMode where
  name : List Char
  symmetry_type : List Char
  whirl_type : List Char
  wt_component : List Char
deriving DecidableEq

/-- AEMode.to_plain_text: the four fields joined with the delimiter char. -/
def AEMode.to_plain_text (m : AEMode) : List Char :=
  m.name ++ '$' :: (m.symmetry_type ++ '$' :: (m.whirl_type ++ '$' :: m.wt_component))

/-- AEMode.from_plain_text: split on the delimiter and take the first four
chunks; none models the IndexError Python raises when fewer than four chunks
exist. -/
def AEMode.from_plain_text (s : List Char) : Option AEMode := do
  let parts := pySplitChar '$' s
  let n ← parts.get? 0
  let sy ← parts.get? 1
  let wh ← parts.get? 2
  let co ← parts.get? 3
  pure ⟨n, sy, wh, co⟩

/-- Splitting a list without the separator yields the single original chunk. -/
theorem pySplitChar_no_sep (sep : Char) (a : List Char) (h : sep ∉ a) :
    pySplitChar sep a = [a] := by
  induction a with
  | nil => rfl
  | cons c cs ih =>
    simp only [List.mem_cons, not_or] at h
    rw [pySplitChar, if_neg (fun hc => h.1 hc.symm), ih h.2]

/-- Splitting distributes over an occurrence of the separator when the block
before it is separator-free. -/
theorem pySplitChar_append (sep : Char) (a b : List Char) (h : sep ∉ a) :
    pySplitChar sep (a ++ sep :: b) = a :: pySplitChar sep b := by
  induction a with
  | nil => simp [pySplitChar]
  | cons c cs ih =>
    simp only [List.mem_cons, not_or] at h
    rw [List.cons_append, pySplitChar, if_neg (fun hc => h.1 hc.symm), ih h.2]

end CampbellViewer

namespace CampbellViewer

/-- C8 counterexample: a mode whose name contains the delimiter character
does not survive the round trip — the name "a$b" comes back as name "a"
with symmetry type "b", so the claim is false for that record. -/
theorem aemode_roundtrip_fails_on_delimiter :
    AEMode.from_plain_text (AEMode.to_plain_text ⟨"a$b".data, [], [], []⟩) ≠
      some ⟨"a$b".data, [], [], []⟩ := by
  decide

/-- C8 (amended): for every AEMode record none of whose four fields contains
the delimiter character, serializing to the single delimited text record and
deserializing reproduces the identical name/classification tuple. -/
theorem aemode_roundtrip (m : AEMode)
    (hn : '$' ∉ m.name) (hs : '$' ∉ m.symmetry_type)
    (hw : '$' ∉ m.whirl_type) (hc : '$' ∉ m.wt_component) :
    AEMode.from_plain_text (AEMode.to_plain_text m) = some m := by
  unfold AEMode.from_plain_text AEMode.to_plain_text
  rw [pySplitChar_append _ _ _ hn, pySplitChar_append _ _ _ hs,
    pySplitChar_append _ _ _ hw, pySplitChar_no_sep _ _ hc]
  rfl

/-- C8 witness: the round trip at a concrete record with four nonempty
delimiter-free fields. -/
theorem aemode_roundtrip_witness :
    AEMode.from_plain_text
        (AEMode.to_plain_text ⟨"1st Tower FA".data, "S".data, "BW".data, "tower".data⟩) =
      some ⟨"1st Tower FA".data, "S".data, "BW".data, "tower".data⟩ :=
  aemode_roundtrip ⟨"1st Tower FA".data, "S".data, "BW".data, "tower".data⟩
    (by decide) (by decide) (by decide) (by decide)

end CampbellViewer

namespace CampbellViewer

/-! ## HAWCStab2 tabular readers (interfaces/hawcstab2.py)

Numeric tables produced by np.loadtxt are modelled as lists of rows of
rationals; the file system together with the header skip is modelled by an
oracle returning none when the file does not exist (the OSError branch). -/

/-- A 2-D numeric array (list of rows). -/
abbrev Table : Type := List (List ℚ)

/-- A 3-D numeric array indexed [operating point][participation mode][mode]. -/
abbrev Arr3 : Type := List (List (List ℚ))

/-- The dataset slots of AbstractLinearizationData together with the filename
attributes used by the HAWCStab2 reader; none is a slot still holding its
initial None. -/
structure HS2Ds where
  filenamecmb : Option String
  filenameamp : Option String
  filenameopt : Option String
  frequency : Option Table
  damping : Option Table
  realpart : Option Table
  participation_factors_amp : Option Arr3
  participation_factors_phase : Option Arr3
  operating_points : Option Table
  operating_parameter : Option (List String)
  modes : Option (List AEMode)
  participation_modes : Option (List AEMode)
deriving DecidableEq

/-- A freshly constructed HAWCStab2Data dataset: every slot is None. -/
def hs2Init : HS2Ds :=
  ⟨none, none, none, none, none, none, none, none, none, none, none, none⟩

/-- The file-system/loadtxt oracle: file name and skip count to parsed table;
none models a missing file (np.loadtxt raising OSError). -/
def FileSys : Type := String → ℕ → Option Table

/-- np.mod for rationals (sign convention of the divisor; only used with
divisor 3 here). -/
def qmod (a b : ℚ) : ℚ := a - b * ⌊a / b⌋

/-- Python int() applied to a rational: truncation toward zero. -/
def pyTrunc (x : ℚ) : ℤ := Int.tdiv x.num (x.den : ℤ)

/-- Column slice [start, start+n) of every row. -/
def sliceCols (t : Table) (start n : ℕ) : Table :=
  t.map (fun r => (r.drop start).take n)

/-- Column slice [start, end-of-row) of every row. -/
def colsFrom (t : Table) (start : ℕ) : Table :=
  t.map (fun r => r.drop start)

/-- Number of columns of a loaded table (myshape[1]). -/
def hs2NumCols (t : Table) : ℕ := (t.headD []).length

/-- HAWCStab2Data.read_cmb_data: update the filename attribute, try to load
the table, and on success slice it into frequency/damping(/realpart) blocks
according to the aeroelastic-vs-structural column test. -/
def hs2_read_cmb_data (fs : FileSys) (ds : HS2Ds) (filenamecmb : Option String)
    (skip_header_lines : ℕ) : HS2Ds :=
  let ds := match filenamecmb with
    | some f => {ds with filenamecmb := some f}
    | none => ds
  match ds.filenamecmb.bind (fun f => fs f skip_header_lines) with
  | none => ds
  | some hs2cmd =>
    let c := hs2NumCols hs2cmd
    if qmod (((c : ℚ) - 1) / 2) 3 = 0 then
      let num_modes := (pyTrunc (((c : ℚ) - 1) / 3)).toNat
      {ds with frequency := some (sliceCols hs2cmd 1 num_modes),
               damping := some (sliceCols hs2cmd (num_modes + 1) num_modes),
               realpart := some (colsFrom hs2cmd (2 * num_modes + 1))}
    else
      let num_modes := (pyTrunc (((c : ℚ) - 1) / 2)).toNat
      {ds with frequency := some (sliceCols hs2cmd 1 num_modes),
               damping := some (sliceCols hs2cmd (num_modes + 1) num_modes)}

/-- The fixed sensor list of read_amp_data. -/
def sensorList : List String :=
  ["TWR SS", "TWR FA", "TWR yaw", "SFT x", "SFT y", "SFT tor",
   "Sym edge", "BW edge", "FW edge", "Sym flap", "BW flap", "FW flap",
   "Sym tors", "BW tors", "FW tors"]

/-- An AEMode carrying only a name, as built by the readers. -/
def aemodeOfName (s : String) : AEMode := ⟨s.data, [], [], []⟩

/-- Elements of a row at even positions 0, 2, 4, ... (numpy stride-2 slice). -/
def everySecond : List ℚ → List ℚ
  | [] => []
  | [x] => [x]
  | x :: _ :: rest => x :: everySecond rest

/-- np.argmax: index of the first occurrence of the maximum. -/
def idxOfMaxAux {α : Type} [LinearOrder α] : List α → ℕ → ℕ → α → ℕ
  | [], _, best, _ => best
  | x :: xs, cur, best, bestv =>
    if bestv < x then idxOfMaxAux xs (cur + 1) cur x
    else idxOfMaxAux xs (cur + 1) best bestv

/-- np.argmax over a list (0 on the empty list). -/
def idxOfMax {α : Type} [LinearOrder α] : List α → ℕ
  | [] => 0
  | x :: xs => idxOfMaxAux xs 1 0 x

/-- The amplitude cube of read_amp_data: the mode-i window of a row is
columns [2*ns*i, 2*ns*(i+1)+1), and its odd columns are the per-sensor
amplitudes (hs2part[:, i_start:i_end][:, 1::2]). -/
def hs2AmpData (hs2part : Table) (ns nm : ℕ) : Arr3 :=
  hs2part.map (fun row =>
    (List.range ns).map (fun j =>
      (List.range nm).map (fun i =>
        (everySecond (((row.drop (2 * ns * i)).take (2 * ns + 1)).drop 1)).getD j 0)))

/-- The phase cube of read_amp_data (hs2part[:, i_start:i_end][:, 2::2]). -/
def hs2PhaseData (hs2part : Table) (ns nm : ℕ) : Arr3 :=
  hs2part.map (fun row =>
    (List.range ns).map (fun j =>
      (List.range nm).map (fun i =>
        (everySecond (((row.drop (2 * ns * i)).take (2 * ns + 1)).drop 2)).getD j 0)))

/-- Mean amplitude of sensor j in mode i over all operating points. -/
def hs2MeanDof (amp : Arr3) (j i : ℕ) : ℚ :=
  ((amp.map (fun sl => (sl.getD j []).getD i 0)).sum) / (amp.length : ℚ)

/-- Dominant-DOF mode naming of read_amp_data, including the first-tower-mode
override. -/
def hs2ModeNames (amp : Arr3) (ns nm : ℕ) : List String :=
  let names := (List.range nm).map (fun i =>
    sensorList.getD (idxOfMax ((List.range ns).map (fun j => hs2MeanDof amp j i))) "")
  if names.getD 2 "" = sensorList.getD 0 "" then names.set 1 (sensorList.getD 1 "")
  else names

/-- HAWCStab2Data.read_amp_data: the filename attribute and the fixed sensor
participation_modes list are assigned before the file is attempted; on a
missing file the method then returns, otherwise the amplitude/phase cubes
and the dominant-DOF mode names are stored. -/
def hs2_read_amp_data (fs : FileSys) (ds : HS2Ds) (filenameamp : Option String)
    (skip_header_lines : ℕ) : HS2Ds :=
  let ds := match filenameamp with
    | some f => {ds with filenameamp := some f}
    | none => ds
  let ds := {ds with participation_modes := some (sensorList.map aemodeOfName)}
  match ds.filenameamp.bind (fun f => fs f skip_header_lines) with
  | none => ds
  | some hs2part =>
    let ns := sensorList.length
    let c := hs2NumCols hs2part
    let nm := (pyTrunc ((((c : ℚ) - 1) / (ns : ℚ)) / 2)).toNat
    let amp := hs2AmpData hs2part ns nm
    {ds with participation_factors_amp := some amp,
             participation_factors_phase := some (hs2PhaseData hs2part ns nm),
             modes := some ((hs2ModeNames amp ns nm).map aemodeOfName)}

/-- The operating-parameter labels of read_opt_data. -/
def hs2OperationalParams : List String :=
  ["wind speed [m/s]", "pitch [deg]", "rot. speed [rpm]",
   "aero power [kw]", "aero thrust [kn]"]

/-- HAWCStab2Data.read_opt_data: update the filename attribute, try to load
the table, and on success store it as the operating points. -/
def hs2_read_opt_data (fs : FileSys) (ds : HS2Ds) (filenameopt : Option String)
    (skip_header_lines : ℕ) : HS2Ds :=
  let ds := match filenameopt with
    | some f => {ds with filenameopt := some f}
    | none => ds
  match ds.filenameopt.bind (fun f => fs f skip_header_lines) with
  | none => ds
  | some hs2optdata =>
    {ds with operating_parameter := some hs2OperationalParams,
             operating_points := some hs2optdata}

end CampbellViewer

namespace CampbellViewer

/-- On nonnegative rationals, Python truncation agrees with the floor. -/
theorem pyTrunc_eq_floor (x : ℚ) (hx : 0 ≤ x) : pyTrunc x = ⌊x⌋ := by
  rw [Rat.floor_def, pyTrunc]
  exact Int.tdiv_eq_ediv (Rat.num_nonneg.mpr hx) (by positivity)

/-- pyTrunc of a natural cast. -/
theorem pyTrunc_natCast (n : ℕ) : pyTrunc ((n : ℚ)) = (n : ℤ) := by
  rw [pyTrunc_eq_floor _ (by positivity)]
  exact Int.floor_natCast n

/-- The structural branch num_modes computed by the reader is the natural
division (c-1)/2. -/
theorem hs2_structural_num_modes (c : ℕ) :
    (pyTrunc (((c : ℚ) - 1) / 2)).toNat = (c - 1) / 2 := by
  cases c with
  | zero =>
    with_unfolding_all decide
  | succ n =>
    have h1 : ((n + 1 : ℕ) : ℚ) - 1 = ((n : ℤ) : ℚ) := by push_cast; ring
    rw [h1]
    have h2 : (((n : ℤ) : ℚ)) / 2 = ((n : ℤ) : ℚ) / ((2 : ℕ) : ℚ) := by norm_num
    rw [pyTrunc_eq_floor _ (by positivity), h2, Rat.floor_intCast_div_natCast]
    omega

/-- The aeroelastic column test of read_cmb_data holds exactly when
(c-1)/2 (in exact arithmetic) is three times a natural number. -/
theorem hs2_qmod_iff (c : ℕ) :
    qmod (((c : ℚ) - 1) / 2) 3 = 0 ↔ ∃ k : ℕ, ((c : ℚ) - 1) / 2 = 3 * (k : ℚ) := by
  unfold qmod
  constructor
  · intro h
    have hx : ((c : ℚ) - 1) / 2 = 3 * ((⌊(((c : ℚ) - 1) / 2) / 3⌋ : ℤ) : ℚ) := by linarith
    have hm : (0 : ℤ) ≤ ⌊(((c : ℚ) - 1) / 2) / 3⌋ := by
      by_contra hneg
      push_neg at hneg
      have h1 : ((⌊(((c : ℚ) - 1) / 2) / 3⌋ : ℤ) : ℚ) ≤ -1 := by
        exact_mod_cast Int.le_sub_one_of_lt hneg
      have h2 : (0 : ℚ) ≤ (c : ℚ) := by positivity
      linarith
    refine ⟨(⌊(((c : ℚ) - 1) / 2) / 3⌋).toNat, ?_⟩
    have hcast : (((⌊(((c : ℚ) - 1) / 2) / 3⌋).toNat : ℕ) : ℚ) =
        ((⌊(((c : ℚ) - 1) / 2) / 3⌋ : ℤ) : ℚ) := by
      exact_mod_cast Int.toNat_of_nonneg hm
    rw [hcast]
    exact hx
  · rintro ⟨k, hk⟩
    rw [hk]
    have h3 : (3 : ℚ) * (k : ℚ) / 3 = ((k : ℕ) : ℚ) := by ring
    rw [h3, Int.floor_natCast]
    push_cast
    ring

/-- In the aeroelastic case the column count is 6k+1. -/
theorem hs2_aero_cols (c k : ℕ) (hk : ((c : ℚ) - 1) / 2 = 3 * (k : ℚ)) :
    c = 6 * k + 1 := by
  have h6 : (c : ℚ) = 6 * (k : ℚ) + 1 := by linarith
  exact_mod_cast h6

/-- In the aeroelastic case the reader's num_modes is 2k = (c-1)/3. -/
theorem hs2_aero_num_modes (c k : ℕ) (hk : ((c : ℚ) - 1) / 2 = 3 * (k : ℚ)) :
    (pyTrunc (((c : ℚ) - 1) / 3)).toNat = 2 * k := by
  have h2 : ((c : ℚ) - 1) / 3 = ((2 * k : ℕ) : ℚ) := by push_cast; linarith
  rw [h2, pyTrunc_natCast]
  omega

end CampbellViewer

namespace CampbellViewer

/-- C3 counterexample: read_amp_data assigns the filename attribute and the
fixed sensor participation_modes list before attempting to open the file, so
a missing file still mutates the dataset in those two slots, contradicting
the claim that every data variable and attribute is unchanged. -/
theorem hs2_missing_file_mutation_counterexample :
    ((hs2_read_amp_data (fun _ _ => none) hs2Init (some ("turbine.amp")) 5).participation_modes ≠
        hs2Init.participation_modes)
    ∧ ((hs2_read_amp_data (fun _ _ => none) hs2Init (some ("turbine.amp")) 5).filenameamp ≠
        hs2Init.filenameamp) := by
  refine ⟨?_, ?_⟩ <;> decide

/-- C3 (amended): on a missing file each HAWCStab2 ingestion step reports the
error and returns leaving every tabular data variable (frequency, damping,
realpart, participation factors, operating points, modes) unchanged; the only
mutations are the updated filename attribute and, for read_amp_data, the
fixed sensor participation_modes list, both written before the existence
check. -/
theorem hs2_missing_file_effects (fs : FileSys) (ds : HS2Ds) (f : String) (skip : ℕ)
    (hmiss : fs f skip = none) :
    hs2_read_cmb_data fs ds (some f) skip = {ds with filenamecmb := some f}
    ∧ hs2_read_opt_data fs ds (some f) skip = {ds with filenameopt := some f}
    ∧ hs2_read_amp_data fs ds (some f) skip =
        {ds with filenameamp := some f,
                 participation_modes := some (sensorList.map aemodeOfName)} := by
  refine ⟨?_, ?_, ?_⟩ <;>
    simp [hs2_read_cmb_data, hs2_read_opt_data, hs2_read_amp_data, hmiss]

/-- C3 witness: the three early returns at a concrete empty file system. -/
theorem hs2_missing_file_effects_witness :
    hs2_read_cmb_data (fun _ _ => none) hs2Init (some ("a.cmb")) 1 =
        {hs2Init with filenamecmb := some ("a.cmb")}
    ∧ hs2_read_opt_data (fun _ _ => none) hs2Init (some ("a.cmb")) 1 =
        {hs2Init with filenameopt := some ("a.cmb")}
    ∧ hs2_read_amp_data (fun _ _ => none) hs2Init (some ("a.cmb")) 1 =
        {hs2Init with filenameamp := some ("a.cmb"),
                      participation_modes := some (sensorList.map aemodeOfName)} :=
  hs2_missing_file_effects (fun _ _ => none) hs2Init "a.cmb" 1 rfl

/-- C4: read_cmb_data classifies the table as aeroelastic exactly when
(c-1)/2 is evenly divisible by 3; in that case num_modes = (c-1)/3 = 2k and
the columns split into frequency, damping and realpart blocks of equal width
num_modes; otherwise the table is structural with num_modes = (c-1)/2
(integer division), frequency and damping blocks of that width, and no
realpart written. -/
theorem hs2_cmb_classification (fs : FileSys) (ds : HS2Ds) (f : String)
    (skip c : ℕ) (hs2cmd : Table)
    (hf : ds.filenamecmb = some f) (hload : fs f skip = some hs2cmd)
    (hc : hs2NumCols hs2cmd = c) (hrect : ∀ r ∈ hs2cmd, r.length = c) :
    (qmod (((c : ℚ) - 1) / 2) 3 = 0 ↔ ∃ k : ℕ, ((c : ℚ) - 1) / 2 = 3 * (k : ℚ))
    ∧ (∀ k : ℕ, ((c : ℚ) - 1) / 2 = 3 * (k : ℚ) →
        (hs2_read_cmb_data fs ds none skip).frequency = some (sliceCols hs2cmd 1 (2 * k))
        ∧ (hs2_read_cmb_data fs ds none skip).damping =
            some (sliceCols hs2cmd (2 * k + 1) (2 * k))
        ∧ (hs2_read_cmb_data fs ds none skip).realpart =
            some (colsFrom hs2cmd (4 * k + 1))
        ∧ ((2 * k : ℕ) : ℚ) = ((c : ℚ) - 1) / 3
        ∧ (∀ r ∈ sliceCols hs2cmd 1 (2 * k), r.length = 2 * k)
        ∧ (∀ r ∈ sliceCols hs2cmd (2 * k + 1) (2 * k), r.length = 2 * k)
        ∧ (∀ r ∈ colsFrom hs2cmd (4 * k + 1), r.length = 2 * k))
    ∧ ((¬ ∃ k : ℕ, ((c : ℚ) - 1) / 2 = 3 * (k : ℚ)) →
        (hs2_read_cmb_data fs ds none skip).frequency =
            some (sliceCols hs2cmd 1 ((c - 1) / 2))
        ∧ (hs2_read_cmb_data fs ds none skip).damping =
            some (sliceCols hs2cmd ((c - 1) / 2 + 1) ((c - 1) / 2))
        ∧ (hs2_read_cmb_data fs ds none skip).realpart = ds.realpart
        ∧ (∀ r ∈ sliceCols hs2cmd 1 ((c - 1) / 2), r.length = (c - 1) / 2)
        ∧ (∀ r ∈ sliceCols hs2cmd ((c - 1) / 2 + 1) ((c - 1) / 2),
            r.length = (c - 1) / 2)) := by
  have hds : hs2_read_cmb_data fs ds none skip =
      if qmod (((c : ℚ) - 1) / 2) 3 = 0 then
        {ds with frequency :=
                   some (sliceCols hs2cmd 1 ((pyTrunc (((c : ℚ) - 1) / 3)).toNat)),
                 damping :=
                   some (sliceCols hs2cmd ((pyTrunc (((c : ℚ) - 1) / 3)).toNat + 1)
                     ((pyTrunc (((c : ℚ) - 1) / 3)).toNat)),
                 realpart :=
                   some (colsFrom hs2cmd (2 * (pyTrunc (((c : ℚ) - 1) / 3)).toNat + 1))}
      else
        {ds with frequency :=
                   some (sliceCols hs2cmd 1 ((pyTrunc (((c : ℚ) - 1) / 2)).toNat)),
                 damping :=
                   some (sliceCols hs2cmd ((pyTrunc (((c : ℚ) - 1) / 2)).toNat + 1)
                     ((pyTrunc (((c : ℚ) - 1) / 2)).toNat))} := by
    unfold hs2_read_cmb_data
    simp only [hf, Option.some_bind, hload, hc]
  refine ⟨hs2_qmod_iff c, ?_, ?_⟩
  · intro k hk
    have hcond : qmod (((c : ℚ) - 1) / 2) 3 = 0 := (hs2_qmod_iff c).mpr ⟨k, hk⟩
    have hnm := hs2_aero_num_modes c k hk
    have hc61 := hs2_aero_cols c k hk
    have h41 : 2 * (2 * k) + 1 = 4 * k + 1 := by ring
    rw [hds, if_pos hcond]
    refine ⟨by simp [hnm], by simp [hnm], by simp [hnm, h41], by push_cast; linarith,
      ?_, ?_, ?_⟩
    · intro r hr
      simp only [sliceCols, List.mem_map] at hr
      obtain ⟨r0, hr0, rfl⟩ := hr
      have hl := hrect r0 hr0
      simp only [List.length_take, List.length_drop, hl, hc61]
      omega
    · intro r hr
      simp only [sliceCols, List.mem_map] at hr
      obtain ⟨r0, hr0, rfl⟩ := hr
      have hl := hrect r0 hr0
      simp only [List.length_take, List.length_drop, hl, hc61]
      omega
    · intro r hr
      simp only [colsFrom, List.mem_map] at hr
      obtain ⟨r0, hr0, rfl⟩ := hr
      have hl := hrect r0 hr0
      simp only [List.length_drop, hl, hc61]
      omega
  · intro hnex
    have hcond : ¬ qmod (((c : ℚ) - 1) / 2) 3 = 0 := fun h => hnex ((hs2_qmod_iff c).mp h)
    have hnm := hs2_structural_num_modes c
    rw [hds, if_neg hcond]
    refine ⟨by simp [hnm], by simp [hnm], by simp, ?_, ?_⟩
    · intro r hr
      simp only [sliceCols, List.mem_map] at hr
      obtain ⟨r0, hr0, rfl⟩ := hr
      have hl := hrect r0 hr0
      simp only [List.length_take, List.length_drop, hl]
      omega
    · intro r hr
      simp only [sliceCols, List.mem_map] at hr
      obtain ⟨r0, hr0, rfl⟩ := hr
      have hl := hrect r0 hr0
      simp only [List.length_take, List.length_drop, hl]
      omega

/-- C4 witness: a one-row seven-column table is classified as aeroelastic
with two modes, and its frequency block is columns 1..2. -/
theorem hs2_cmb_classification_witness :
    (hs2_read_cmb_data (fun _ _ => some [[0, 1, 2, 3, 4, 5, 6]])
        {hs2Init with filenamecmb := some ("t.cmb")} none 1).frequency =
      some [[1, 2]] := by
  have h := hs2_cmb_classification (fun _ _ => some [[0, 1, 2, 3, 4, 5, 6]])
      {hs2Init with filenamecmb := some ("t.cmb")} "t.cmb" 1 7 [[0, 1, 2, 3, 4, 5, 6]]
      rfl rfl rfl
      (by intro r hr; rw [List.mem_singleton] at hr; subst hr; rfl)
  have h2 := h.2.1 1 (by norm_num)
  rw [h2.1]
  with_unfolding_all rfl

end CampbellViewer

namespace CampbellViewer

/-! ## Bladed version dispatch (interfaces/bladed.py, read_data) -/

/-- The three mutually exclusive ingestion strategies selected by
BladedLinData.read_data. -/
inductive BladedPath
  | pre4p7
  | v4p7to4p8
  | vDefault
deriving DecidableEq

/-- The minor version component inspected by read_data: element 1 of the
dot-split version string converted with int(); none models the exception
raised when that element is missing or not an integer. -/
def bladedMinor (version : List Char) : Option Int :=
  ((pySplitChar '.' version).get? 1).bind pyIntOfChars

/-- BladedLinData.read_data dispatch: minor version at most 6 selects the
pre-4.7 reader, more than 6 and at most 8 the 4.7/4.8 readers, anything
else the default readers. -/
def bladedDispatch (version : List Char) : Option BladedPath :=
  (bladedMinor version).map (fun m =>
    if m ≤ 6 then .pre4p7
    else if m ≤ 8 then .v4p7to4p8
    else .vDefault)

/-- The split of a list is never empty. -/
theorem pySplitChar_ne_nil (sep : Char) (xs : List Char) : pySplitChar sep xs ≠ [] := by
  cases xs with
  | nil => simp [pySplitChar]
  | cons c cs =>
    rw [pySplitChar]
    by_cases hc : c = sep
    · simp [hc]
    · rw [if_neg hc]
      cases h : pySplitChar sep cs <;> simp

/-- The first chunk of a split is the longest separator-free prefix. -/
theorem pySplitChar_head (sep : Char) (xs : List Char) :
    (pySplitChar sep xs).get? 0 = some (xs.takeWhile (fun c => !(c == sep))) := by
  induction xs with
  | nil => rfl
  | cons c cs ih =>
    rw [pySplitChar]
    by_cases hc : c = sep
    · subst hc
      simp [List.takeWhile_cons]
    · rw [if_neg hc]
      cases h : pySplitChar sep cs with
      | nil => exact absurd h (pySplitChar_ne_nil sep cs)
      | cons t ts =>
        rw [h] at ih
        simp only [List.get?_cons_zero, Option.some.injEq] at ih
        simp [List.takeWhile_cons, hc, ih]

/-- takeWhile ignores everything at and after the first separator. -/
theorem takeWhile_append_sep (sep : Char) (a b : List Char) :
    ((a ++ sep :: b).takeWhile (fun c => !(c == sep))) =
      a.takeWhile (fun c => !(c == sep)) := by
  induction a with
  | nil => simp [List.takeWhile_cons]
  | cons c cs ih =>
    by_cases hc : c = sep
    · simp [List.takeWhile_cons, hc]
    · simp [List.takeWhile_cons, hc, ih]

/-- The minor component of a well-formed version string is computed from the
text between the first dot and the following dot, independently of the major
component and of everything after the second dot. -/
theorem bladedMinor_concat (maj m rest : List Char) (h : '.' ∉ maj) :
    bladedMinor (maj ++ ('.' :: (m ++ ('.' :: rest)))) =
      pyIntOfChars (m.takeWhile (fun c => !(c == '.'))) := by
  unfold bladedMinor
  rw [pySplitChar_append _ _ _ h]
  simp only [List.get?_cons_succ]
  rw [pySplitChar_head, takeWhile_append_sep]
  rfl

end CampbellViewer

namespace CampbellViewer

/-- C6: version "4.6.2" selects the pre-4.7 path, "4.8.0" the 4.7/4.8 path,
and "4.9.1" the default path; the dispatch returns exactly one of the three
mutually exclusive strategies. -/
theorem bladed_dispatch_scenarioD :
    bladedDispatch ("4.6.2".data) = some BladedPath.pre4p7
    ∧ bladedDispatch ("4.8.0".data) = some BladedPath.v4p7to4p8
    ∧ bladedDispatch ("4.9.1".data) = some BladedPath.vDefault := by
  refine ⟨?_, ?_, ?_⟩ <;> decide

/-- C9: the dispatch inspects only the minor component (the text between the
first and second dot): two version strings sharing it dispatch identically;
whenever the minor parses to an integer m, m <= 6 selects the pre-4.7 path,
6 < m <= 8 the 4.7/4.8 path and any other m the default path; in particular
"5.0.0" selects the pre-4.7 path rather than a newer layout or an
unsupported-version diagnostic. -/
theorem bladed_dispatch_minor_only (maj1 maj2 rest1 rest2 m : List Char)
    (h1 : '.' ∉ maj1) (h2 : '.' ∉ maj2) :
    (bladedDispatch (maj1 ++ ('.' :: (m ++ ('.' :: rest1)))) =
        bladedDispatch (maj2 ++ ('.' :: (m ++ ('.' :: rest2)))))
    ∧ (∀ s : List Char, ∀ mi : Int, bladedMinor s = some mi →
        bladedDispatch s = some (if mi ≤ 6 then BladedPath.pre4p7
          else if mi ≤ 8 then BladedPath.v4p7to4p8 else BladedPath.vDefault))
    ∧ bladedDispatch ("5.0.0".data) = some BladedPath.pre4p7 := by
  refine ⟨?_, ?_, by decide⟩
  · unfold bladedDispatch
    rw [bladedMinor_concat _ _ _ h1, bladedMinor_concat _ _ _ h2]
  · intro s mi hmi
    unfold bladedDispatch
    rw [hmi]
    rfl

/-- C9 witness: two version strings with different major and patch parts but
the same minor dispatch identically, and "5.0.0" takes the pre-4.7 path. -/
theorem bladed_dispatch_minor_only_witness :
    (bladedDispatch ("4".data ++ ('.' :: ("6".data ++ ('.' :: "2".data)))) =
        bladedDispatch ("17".data ++ ('.' :: ("6".data ++ ('.' :: "99".data)))))
    ∧ bladedDispatch ("5.0.0".data) = some BladedPath.pre4p7 :=
  ⟨(bladed_dispatch_minor_only "4".data "17".data "2".data "99".data "6".data
      (by decide) (by decide)).1,
   (bladed_dispatch_minor_only "4".data "17".data "2".data "99".data "6".data
      (by decide) (by decide)).2.2⟩

end CampbellViewer

namespace CampbellViewer

/-! ## Bladed 4.7/4.8 operational data (read_op_data_4p7_4p8)

The Wind Speed branch: the wind-speed vector comes from the side file, the
rotor-speed vector is the longest mode track of the Campbell file; if the two
lengths differ the rotor speeds are discarded and replaced by ones. The
result is (tracks-unequal-length diagnostic, length-mismatch diagnostic,
operating points); none models the IndexError on an empty track list. -/

/-- Core of read_op_data_4p7_4p8 for the standard AXISLAB == Wind Speed case. -/
def bladed_read_op_data_4p7_4p8 (windspeed : List ℚ) (allTracks : List (List ℚ)) :
    Option (Bool × Bool × List (ℚ × ℚ)) :=
  match allTracks with
  | [] => none
  | t0 :: _ =>
    let lengths := allTracks.map List.length
    let diagTracks := !(lengths.all (fun l => l == t0.length))
    let rpm := allTracks.getD (idxOfMax lengths) []
    if windspeed.length = rpm.length then
      some (diagTracks, false, windspeed.zip rpm)
    else
      some (diagTracks, true, windspeed.zip (List.replicate windspeed.length 1))

/-- Zipping a list with same-length replicated ones recovers the ones in the
second component. -/
theorem zip_replicate_snd (l : List ℚ) (a : ℚ) :
    (l.zip (List.replicate l.length a)).map Prod.snd = List.replicate l.length a := by
  induction l with
  | nil => rfl
  | cons x xs ih => simp [List.replicate_succ, ih]

/-- C7: in the 4.7/4.8 operational-data path, when the wind-speed vector and
the reconstructed rotor-speed vector differ in length, the rotor speeds are
discarded and replaced by a vector of ones of the wind-speed shape, the
diagnostic flag is set, and ingestion continues non-fatally with these
operating points. -/
theorem bladed_op_4p7_4p8_length_fallback (windspeed : List ℚ)
    (allTracks : List (List ℚ)) (hne : allTracks ≠ [])
    (hlen : windspeed.length ≠
      (allTracks.getD (idxOfMax (allTracks.map List.length)) []).length) :
    ∃ dt : Bool,
      bladed_read_op_data_4p7_4p8 windspeed allTracks =
        some (dt, true, windspeed.zip (List.replicate windspeed.length (1 : ℚ)))
      ∧ (windspeed.zip (List.replicate windspeed.length (1 : ℚ))).map Prod.snd =
          List.replicate windspeed.length (1 : ℚ)
      ∧ (windspeed.zip (List.replicate windspeed.length (1 : ℚ))).map Prod.fst =
          windspeed := by
  cases allTracks with
  | nil => exact absurd rfl hne
  | cons t0 ts =>
    refine ⟨!(((t0 :: ts).map List.length).all (fun l => l == t0.length)), ?_, ?_, ?_⟩
    · unfold bladed_read_op_data_4p7_4p8
      dsimp only
      rw [if_neg hlen]
    · exact zip_replicate_snd windspeed 1
    · have hlrep : windspeed.length ≤ (List.replicate windspeed.length (1 : ℚ)).length := by
        simp
      exact List.map_fst_zip _ _ hlrep

/-- C7 witness: two wind speeds against a single three-point mode track. -/
theorem bladed_op_4p7_4p8_length_fallback_witness :
    ∃ dt : Bool,
      bladed_read_op_data_4p7_4p8 [8, 10] [[1, 2, 3]] =
        some (dt, true,
          ([8, 10] : List ℚ).zip (List.replicate ([8, 10] : List ℚ).length (1 : ℚ)))
      ∧ (([8, 10] : List ℚ).zip
            (List.replicate ([8, 10] : List ℚ).length (1 : ℚ))).map Prod.snd =
          List.replicate ([8, 10] : List ℚ).length (1 : ℚ)
      ∧ (([8, 10] : List ℚ).zip
            (List.replicate ([8, 10] : List ℚ).length (1 : ℚ))).map Prod.fst =
          [8, 10] :=
  bladed_op_4p7_4p8_length_fallback [8, 10] [[1, 2, 3]]
    (List.cons_ne_nil _ _) (by decide)

end CampbellViewer

namespace CampbellViewer

/-! ## Growing participation arrays (DynamicSchemaAccumulator,
BladedLin_lib.py, read_additional_cmb_data lines 174-186) -/

/-- Element of a 3-D array with the numpy zero default outside the current
extent (pad slices appended later are all zero, so reads agree). -/
def get3 (a : Arr3) (i j k : ℕ) : ℚ := ((a.getD i []).getD j []).getD k 0

/-- Scalar assignment arr[i, j, k] = v (the callers always write in range;
out-of-range writes are no-ops like List.set). -/
def set3 (a : Arr3) (i j k : ℕ) (v : ℚ) : Arr3 :=
  a.set i ((a.getD i []).set j (((a.getD i []).getD j []).set k v))

/-- np.pad(arr, ((0,0),(0,1),(0,0)), constant 0): append one all-zero row of
width nModes along the participation-mode axis of every operating-point
slice. -/
def padPart (a : Arr3) (nModes : ℕ) : Arr3 :=
  a.map (fun sl => sl ++ [List.replicate nModes 0])

/-- np.zeros((nOps, 0, nModes)): one empty participation axis per operating
point. -/
def zeros3 (nOps : ℕ) : Arr3 := List.replicate nOps []

/-- The dynamic registry step of read_additional_cmb_data: an unseen name is
appended to the registry and both cubes are padded with an all-zero slice; a
known name reuses its first index (list.index). Returns the updated
registry, both cubes, and the index assigned to the name. -/
def registerOrGet (names : List (List Char)) (amp phase : Arr3) (nModes : ℕ)
    (name : List Char) : List (List Char) × Arr3 × Arr3 × ℕ :=
  if name ∈ names then (names, amp, phase, names.indexOf name)
  else (names ++ [name], padPart amp nModes, padPart phase nModes, names.length)

/-- Padding is invisible to reads: the appended slice is all zero and reads
outside the extent already defaulted to zero. -/
theorem get3_padPart (a : Arr3) (n i j k : ℕ) :
    get3 (padPart a n) i j k = get3 a i j k := by
  unfold get3 padPart
  cases hi : a[i]? with
  | none =>
    have h1 : (List.map (fun sl => sl ++ [List.replicate n (0 : ℚ)]) a)[i]? = none := by
      rw [List.getElem?_map, hi]
      rfl
    simp [h1, hi]
  | some sl =>
    have h1 : (List.map (fun sl => sl ++ [List.replicate n (0 : ℚ)]) a)[i]? =
        some (sl ++ [List.replicate n 0]) := by
      rw [List.getElem?_map, hi]
      rfl
    simp only [List.getD_eq_getElem?_getD, h1, hi, Option.getD_some]
    rcases lt_trichotomy j sl.length with hj | hj | hj
    · rw [List.getElem?_append_left hj]
    · subst hj
      rw [List.getElem?_append_right le_rfl]
      simp
    · rw [List.getElem?_append_right (by omega)]
      have h2 : sl[j]? = none := List.getElem?_eq_none (by omega)
      have h3 : [List.replicate n (0 : ℚ)][j - sl.length]? = none :=
        List.getElem?_eq_none (by simp; omega)
      simp [h2, h3]

/-- Axis-1 length of every operating-point slice after padding. -/
theorem padPart_slice_length (a : Arr3) (n L : ℕ)
    (h : ∀ sl ∈ a, sl.length = L) :
    ∀ sl ∈ padPart a n, sl.length = L + 1 := by
  intro sl hsl
  obtain ⟨sl0, hsl0, rfl⟩ := List.mem_map.mp hsl
  simp [h sl0 hsl0]

/-- The all-zero array reads zero everywhere. -/
theorem get3_zeros3 (nOps i j k : ℕ) : get3 (zeros3 nOps) i j k = 0 := by
  unfold get3 zeros3
  cases hi : (List.replicate nOps ([] : List (List ℚ)))[i]? with
  | none => simp [hi]
  | some sl =>
    have : sl = [] := by
      rcases List.getElem?_replicate (n := nOps) (a := ([] : List (List ℚ)))
          (m := i) ▸ hi with h
      split at h
      · exact (Option.some.injEq _ _ ▸ h).symm
      · exact absurd h (by simp)
    subst this
    simp [hi]

end CampbellViewer

namespace CampbellViewer

/-- C5: registering participation-mode names preserves the registry/array
invariant: a known name appends nothing, pads nothing and reuses its first
index; a new name is appended to the registry, both cubes are padded with
exactly one all-zero slice, every previously written element keeps its
prior value at its prior index, and afterwards both cubes' participation
axis length equals the registry length. -/
theorem registerOrGet_spec (names : List (List Char)) (amp phase : Arr3)
    (nModes : ℕ) (name : List Char)
    (hamp : ∀ sl ∈ amp, sl.length = names.length)
    (hphase : ∀ sl ∈ phase, sl.length = names.length) :
    (∀ sl ∈ (registerOrGet names amp phase nModes name).2.1,
        sl.length = (registerOrGet names amp phase nModes name).1.length)
    ∧ (∀ sl ∈ (registerOrGet names amp phase nModes name).2.2.1,
        sl.length = (registerOrGet names amp phase nModes name).1.length)
    ∧ (name ∈ names →
        (registerOrGet names amp phase nModes name) =
          (names, amp, phase, names.indexOf name))
    ∧ (name ∉ names →
        (registerOrGet names amp phase nModes name).1 = names ++ [name]
        ∧ (registerOrGet names amp phase nModes name).1.length = names.length + 1
        ∧ (∀ i j k, get3 (registerOrGet names amp phase nModes name).2.1 i j k =
            get3 amp i j k)
        ∧ (∀ i j k, get3 (registerOrGet names amp phase nModes name).2.2.1 i j k =
            get3 phase i j k)
        ∧ (∀ i k, get3 (registerOrGet names amp phase nModes name).2.1 i
            names.length k = 0)
        ∧ (registerOrGet names amp phase nModes name).2.2.2 = names.length) := by
  by_cases hmem : name ∈ names
  · rw [registerOrGet, if_pos hmem]
    exact ⟨hamp, hphase, fun _ => rfl, fun hn => absurd hmem hn⟩
  · rw [registerOrGet, if_neg hmem]
    refine ⟨?_, ?_, fun hn => absurd hn hmem, fun _ => ?_⟩
    · intro sl hsl
      have := padPart_slice_length amp nModes names.length hamp sl hsl
      simp only [List.length_append, List.length_cons, List.length_nil]
      omega
    · intro sl hsl
      have := padPart_slice_length phase nModes names.length hphase sl hsl
      simp only [List.length_append, List.length_cons, List.length_nil]
      omega
    refine ⟨rfl, by simp, fun i j k => get3_padPart amp nModes i j k,
      fun i j k => get3_padPart phase nModes i j k, ?_, rfl⟩
    intro i k
    rw [get3_padPart]
    unfold get3
    cases hi : amp[i]? with
    | none => simp [hi]
    | some sl =>
      have hlen : sl.length = names.length := hamp sl (List.getElem?_mem hi)
      have h2 : sl[names.length]? = none := List.getElem?_eq_none (by omega)
      simp [hi, h2]

/-- C5 witness: registering a known then an unseen name on a concrete
populated state. -/
theorem registerOrGet_spec_witness :
    ((registerOrGet ["a".data] [[[5]]] [[[7]]] 1 ("b".data)).2.2.2 = 1)
    ∧ (get3 (registerOrGet ["a".data] [[[5]]] [[[7]]] 1 ("b".data)).2.1 0 0 0 = 5)
    ∧ (registerOrGet ["a".data] [[[5]]] [[[7]]] 1 ("a".data) =
        (["a".data], [[[5]]], [[[7]]], 0)) := by
  have hnew := registerOrGet_spec ["a".data] [[[5]]] [[[7]]] 1 ("b".data)
    (by intro sl hsl; rw [List.mem_singleton] at hsl; subst hsl; rfl)
    (by intro sl hsl; rw [List.mem_singleton] at hsl; subst hsl; rfl)
  have hold := registerOrGet_spec ["a".data] [[[5]]] [[[7]]] 1 ("a".data)
    (by intro sl hsl; rw [List.mem_singleton] at hsl; subst hsl; rfl)
    (by intro sl hsl; rw [List.mem_singleton] at hsl; subst hsl; rfl)
  refine ⟨?_, ?_, ?_⟩
  · exact ((hnew.2.2.2 (by decide)).2.2.2.2.2)
  · rw [(hnew.2.2.2 (by decide)).2.2.1 0 0 0]
    with_unfolding_all rfl
  · have h0 : (["a".data] : List (List Char)).indexOf ("a".data) = 0 := by decide
    exact h0 ▸ hold.2.2.1 (by decide)

end CampbellViewer

namespace CampbellViewer

/-! ## Legacy triple-intersection linkage
(BladedLin_lib.py, read_additional_cmb_data) -/

/-- The exact rational value of the float64 constant np.pi. -/
def npPi : ℚ := 884279719003555 / 281474976710656

/-- The participation_info arrays of the Campbell participations data: per
node its rotor speed, frequency, damping and raw participation string. -/
structure PartInfo where
  omega : List ℚ
  freq : List ℚ
  damp : List ℚ
  particip_str : List (List Char)
deriving DecidableEq

/-- np.where(abs(arr - target) < 0.001): indices within tolerance 1e-3. -/
def candIdx (xs : List ℚ) (target : ℚ) : List ℕ :=
  (List.range xs.length).filter (fun j => |xs.getD j 0 - target| < 1 / 1000)

/-- np.intersect1d on the sorted duplicate-free index lists produced by
candIdx. -/
def idxInter (a b : List ℕ) : List ℕ := a.filter (fun x => decide (x ∈ b))

/-- The candidate set of read_additional_cmb_data for (i_rs, i_mode): the
operating-point (rotor speed), frequency and damping candidates intersected.
The dataset frequency is converted to rad/s and damping from percent. -/
def uniqCand (info : PartInfo) (rotspeeds : List ℚ)
    (frequency damping : Table) (i_rs i_mode : ℕ) : List ℕ :=
  idxInter (candIdx info.omega (rotspeeds.getD i_rs 0))
    (idxInter (candIdx info.freq (((frequency.getD i_rs []).getD i_mode 0) * 2 * npPi))
      (candIdx info.damp (((damping.getD i_rs []).getD i_mode 0) / 100)))

/-- Mutable state of the linkage loop: discovered registry, the two growing
cubes, and the reported linkage failures (operating point, mode). -/
structure LinkState where
  names : List (List Char)
  amp : Arr3
  phase : Arr3
  failures : List (ℕ × ℕ)
deriving DecidableEq

/-- The empty linkage state. -/
def emptyLinkState : LinkState := ⟨[], [], [], []⟩

/-- Write one parsed participation record at (i_rs, i_mode): register its
name (padding on a new name) and assign amplitude and phase. -/
def applyRecord (nModes i_rs i_mode : ℕ) (st : LinkState) (r : PartRecord) :
    LinkState :=
  let out := registerOrGet st.names st.amp st.phase nModes r.name
  { names := out.1,
    amp := set3 out.2.1 i_rs out.2.2.2 i_mode r.ampl,
    phase := set3 out.2.2.1 i_rs out.2.2.2 i_mode r.phase,
    failures := st.failures }

/-- Process one (operating point, mode) pair: a unique triple-intersection
candidate links the matched row (parsing its participation string and
writing every record); zero or several candidates are reported as a failure
for that pair and nothing is written. none models a parse exception. -/
def processPair (info : PartInfo) (rotspeeds : List ℚ)
    (frequency damping : Table) (nModes : ℕ) (st : LinkState) (p : ℕ × ℕ) :
    Option LinkState :=
  match uniqCand info rotspeeds frequency damping p.1 p.2 with
  | [r] =>
    match parseParticipStr (info.particip_str.getD r []) with
    | none => none
    | some records => some (records.foldl (applyRecord nModes p.1 p.2) st)
  | _ => some {st with failures := st.failures ++ [p]}

/-- Run the linkage over the remaining pairs in loop order. -/
def runPairs (info : PartInfo) (rotspeeds : List ℚ)
    (frequency damping : Table) (nModes : ℕ) :
    LinkState → List (ℕ × ℕ) → Option LinkState
  | st, [] => some st
  | st, p :: ps =>
    match processPair info rotspeeds frequency damping nModes st p with
    | none => none
    | some st1 => runPairs info rotspeeds frequency damping nModes st1 ps

/-- The loop order of read_additional_cmb_data: all modes of the first
operating point, then the next operating point. -/
def allPairs (nRs nModes : ℕ) : List (ℕ × ℕ) :=
  (List.range nRs).flatMap (fun i => (List.range nModes).map (fun j => (i, j)))

/-- BladedLinData.read_additional_cmb_data: rotor speeds converted from rpm
to rad/s, cubes starting with an empty participation axis, and every
(operating point, mode) pair linked by unique triple intersection. -/
def read_additional_cmb_data (rpms : List ℚ) (nModes : ℕ)
    (frequency damping : Table) (info : PartInfo) : Option LinkState :=
  runPairs info (rpms.map (fun r => r * 2 * npPi / 60)) frequency damping nModes
    ⟨[], zeros3 rpms.length, zeros3 rpms.length, []⟩
    (allPairs rpms.length nModes)

/-- Whether linkage fails for a pair: the candidate set is not a singleton. -/
def badPair (info : PartInfo) (rotspeeds : List ℚ)
    (frequency damping : Table) (p : ℕ × ℕ) : Bool :=
  (uniqCand info rotspeeds frequency damping p.1 p.2).length != 1

end CampbellViewer

namespace CampbellViewer

/-- getD after set at a different index. -/
theorem getD_set_ne {α : Type} (l : List α) (i : ℕ) (a : α) (j : ℕ) (d : α)
    (h : i ≠ j) : (l.set i a).getD j d = l.getD j d := by
  simp [List.getD_eq_getElem?_getD, List.getElem?_set_ne h]

/-- getD after set at the same index. -/
theorem getD_set_self_or {α : Type} (l : List α) (i : ℕ) (a : α) (d : α) :
    (l.set i a).getD i d = if i < l.length then a else d := by
  by_cases h : i < l.length
  · simp [List.getD_eq_getElem?_getD, List.getElem?_set_self h, h]
  · rw [List.set_eq_of_length_le (Nat.le_of_not_lt h)]
    simp [List.getD_eq_getElem?_getD, List.getElem?_eq_none (Nat.le_of_not_lt h), h]

/-- A scalar write at (x, y, z) is invisible at any cell with a different
operating-point or mode coordinate. -/
theorem get3_set3_ne (a : Arr3) (x y z : ℕ) (v : ℚ) (i j k : ℕ)
    (h : i ≠ x ∨ k ≠ z) :
    get3 (set3 a x y z v) i j k = get3 a i j k := by
  unfold get3 set3
  by_cases hix : i = x
  · have hk : k ≠ z := by
      rcases h with h | h
      · exact absurd hix h
      · exact h
    subst hix
    by_cases hlt : i < a.length
    · rw [getD_set_self_or, if_pos hlt]
      by_cases hjy : j = y
      · subst hjy
        rw [getD_set_self_or]
        by_cases hylt : j < (a.getD i []).length
        · rw [if_pos hylt, getD_set_ne _ _ _ _ _ (Ne.symm hk)]
        · rw [if_neg hylt]
          have hnil : (a.getD i []).getD j ([] : List ℚ) = [] := by
            rw [List.getD_eq_getElem?_getD,
              List.getElem?_eq_none (Nat.le_of_not_lt hylt)]
            rfl
          rw [hnil]
      · rw [getD_set_ne _ _ _ _ _ (Ne.symm hjy)]
    · rw [List.set_eq_of_length_le (Nat.le_of_not_lt hlt)]
  · rw [getD_set_ne _ _ _ _ _ (Ne.symm hix)]

/-- One record write at pair (x, z) is invisible at other pairs and keeps
the failure list. -/
theorem applyRecord_frame (nModes x z : ℕ) (st : LinkState) (r : PartRecord)
    (i j k : ℕ) (h : i ≠ x ∨ k ≠ z) :
    get3 (applyRecord nModes x z st r).amp i j k = get3 st.amp i j k
    ∧ get3 (applyRecord nModes x z st r).phase i j k = get3 st.phase i j k
    ∧ (applyRecord nModes x z st r).failures = st.failures := by
  unfold applyRecord registerOrGet
  by_cases hmem : r.name ∈ st.names
  · simp only [if_pos hmem]
    exact ⟨get3_set3_ne _ _ _ _ _ _ _ _ h, get3_set3_ne _ _ _ _ _ _ _ _ h, trivial⟩
  · simp only [if_neg hmem]
    refine ⟨?_, ?_, trivial⟩
    · rw [get3_set3_ne _ _ _ _ _ _ _ _ h, get3_padPart]
    · rw [get3_set3_ne _ _ _ _ _ _ _ _ h, get3_padPart]

/-- Writing a whole record list at pair (x, z) is invisible at other pairs
and keeps the failure list. -/
theorem foldl_applyRecord_frame (nModes x z : ℕ) (records : List PartRecord)
    (st : LinkState) (i j k : ℕ) (h : i ≠ x ∨ k ≠ z) :
    get3 (records.foldl (applyRecord nModes x z) st).amp i j k = get3 st.amp i j k
    ∧ get3 (records.foldl (applyRecord nModes x z) st).phase i j k =
        get3 st.phase i j k
    ∧ (records.foldl (applyRecord nModes x z) st).failures = st.failures := by
  induction records generalizing st with
  | nil => exact ⟨rfl, rfl, rfl⟩
  | cons r rs ih =>
    simp only [List.foldl_cons]
    obtain ⟨ha, hp, hf⟩ := ih (applyRecord nModes x z st r)
    obtain ⟨ha1, hp1, hf1⟩ := applyRecord_frame nModes x z st r i j k h
    exact ⟨ha.trans ha1, hp.trans hp1, hf.trans hf1⟩

/-- Record writes never touch the failure list. -/
theorem foldl_applyRecord_failures (nModes x z : ℕ) (records : List PartRecord)
    (st : LinkState) :
    (records.foldl (applyRecord nModes x z) st).failures = st.failures := by
  induction records generalizing st with
  | nil => rfl
  | cons r rs ih =>
    simp only [List.foldl_cons]
    rw [ih]
    rfl

/-- The failure list grows by exactly the processed pair when its candidate
set is not a singleton, and is untouched otherwise. -/
theorem processPair_failures (info : PartInfo) (rotspeeds : List ℚ)
    (frequency damping : Table) (nModes : ℕ) (st : LinkState) (p : ℕ × ℕ)
    (st1 : LinkState)
    (hrun : processPair info rotspeeds frequency damping nModes st p = some st1) :
    st1.failures = st.failures ++
      (if badPair info rotspeeds frequency damping p then [p] else []) := by
  cases hcand : uniqCand info rotspeeds frequency damping p.1 p.2 with
  | nil =>
    have heq : processPair info rotspeeds frequency damping nModes st p =
        some {st with failures := st.failures ++ [p]} := by
      unfold processPair
      rw [hcand]
    rw [heq] at hrun
    have hb : badPair info rotspeeds frequency damping p = true := by
      simp [badPair, hcand]
    rw [← Option.some.inj hrun, hb]
    simp
  | cons r rest =>
    cases rest with
    | nil =>
      have hb : badPair info rotspeeds frequency damping p = false := by
        simp [badPair, hcand]
      cases hparse : parseParticipStr (info.particip_str.getD r []) with
      | none =>
        have heq : processPair info rotspeeds frequency damping nModes st p = none := by
          unfold processPair
          rw [hcand]
          dsimp only
          rw [hparse]
        rw [heq] at hrun
        exact absurd hrun (by simp)
      | some records =>
        have heq : processPair info rotspeeds frequency damping nModes st p =
            some (records.foldl (applyRecord nModes p.1 p.2) st) := by
          unfold processPair
          rw [hcand]
          dsimp only
          rw [hparse]
        rw [heq] at hrun
        rw [← Option.some.inj hrun, hb]
        simp only [Bool.false_eq_true, if_false, List.append_nil]
        exact foldl_applyRecord_failures nModes p.1 p.2 records st
    | cons r2 rest2 =>
      have heq : processPair info rotspeeds frequency damping nModes st p =
          some {st with failures := st.failures ++ [p]} := by
        unfold processPair
        rw [hcand]
      rw [heq] at hrun
      have hb : badPair info rotspeeds frequency damping p = true := by
        simp [badPair, hcand]
      rw [← Option.some.inj hrun, hb]
      simp

end CampbellViewer

namespace CampbellViewer

/-- Processing a pair never changes cells of other pairs. -/
theorem processPair_frame (info : PartInfo) (rotspeeds : List ℚ)
    (frequency damping : Table) (nModes : ℕ) (st : LinkState) (p : ℕ × ℕ)
    (st1 : LinkState)
    (hrun : processPair info rotspeeds frequency damping nModes st p = some st1)
    (i j k : ℕ) (h : i ≠ p.1 ∨ k ≠ p.2) :
    get3 st1.amp i j k = get3 st.amp i j k
    ∧ get3 st1.phase i j k = get3 st.phase i j k := by
  cases hcand : uniqCand info rotspeeds frequency damping p.1 p.2 with
  | nil =>
    have heq : processPair info rotspeeds frequency damping nModes st p =
        some {st with failures := st.failures ++ [p]} := by
      unfold processPair
      rw [hcand]
    rw [heq] at hrun
    rw [← Option.some.inj hrun]
    exact ⟨rfl, rfl⟩
  | cons r rest =>
    cases rest with
    | nil =>
      cases hparse : parseParticipStr (info.particip_str.getD r []) with
      | none =>
        have heq : processPair info rotspeeds frequency damping nModes st p = none := by
          unfold processPair
          rw [hcand]
          dsimp only
          rw [hparse]
        rw [heq] at hrun
        exact absurd hrun (by simp)
      | some records =>
        have heq : processPair info rotspeeds frequency damping nModes st p =
            some (records.foldl (applyRecord nModes p.1 p.2) st) := by
          unfold processPair
          rw [hcand]
          dsimp only
          rw [hparse]
        rw [heq] at hrun
        rw [← Option.some.inj hrun]
        obtain ⟨ha, hp, _⟩ := foldl_applyRecord_frame nModes p.1 p.2 records st i j k h
        exact ⟨ha, hp⟩
    | cons r2 rest2 =>
      have heq : processPair info rotspeeds frequency damping nModes st p =
          some {st with failures := st.failures ++ [p]} := by
        unfold processPair
        rw [hcand]
      rw [heq] at hrun
      rw [← Option.some.inj hrun]
      exact ⟨rfl, rfl⟩

/-- A failed pair writes nothing at all. -/
theorem processPair_bad_state (info : PartInfo) (rotspeeds : List ℚ)
    (frequency damping : Table) (nModes : ℕ) (st : LinkState) (p : ℕ × ℕ)
    (st1 : LinkState)
    (hrun : processPair info rotspeeds frequency damping nModes st p = some st1)
    (hbad : badPair info rotspeeds frequency damping p = true) :
    st1.amp = st.amp ∧ st1.phase = st.phase := by
  cases hcand : uniqCand info rotspeeds frequency damping p.1 p.2 with
  | nil =>
    have heq : processPair info rotspeeds frequency damping nModes st p =
        some {st with failures := st.failures ++ [p]} := by
      unfold processPair
      rw [hcand]
    rw [heq] at hrun
    rw [← Option.some.inj hrun]
    exact ⟨rfl, rfl⟩
  | cons r rest =>
    cases rest with
    | nil => simp [badPair, hcand] at hbad
    | cons r2 rest2 =>
      have heq : processPair info rotspeeds frequency damping nModes st p =
          some {st with failures := st.failures ++ [p]} := by
        unfold processPair
        rw [hcand]
      rw [heq] at hrun
      rw [← Option.some.inj hrun]
      exact ⟨rfl, rfl⟩

/-- Running the loop appends exactly the failing pairs, in order. -/
theorem runPairs_failures (info : PartInfo) (rotspeeds : List ℚ)
    (frequency damping : Table) (nModes : ℕ) :
    ∀ (ps : List (ℕ × ℕ)) (st out : LinkState),
    runPairs info rotspeeds frequency damping nModes st ps = some out →
    out.failures = st.failures ++
      ps.filter (badPair info rotspeeds frequency damping) := by
  intro ps
  induction ps with
  | nil =>
    intro st out h
    rw [← Option.some.inj h]
    simp [runPairs] at h ⊢
  | cons p ps ih =>
    intro st out h
    unfold runPairs at h
    cases hp : processPair info rotspeeds frequency damping nModes st p with
    | none =>
      rw [hp] at h
      exact absurd h (by simp)
    | some st1 =>
      rw [hp] at h
      have h1 := ih st1 out h
      have h2 := processPair_failures info rotspeeds frequency damping nModes st p st1 hp
      rw [h1, h2, List.filter_cons]
      by_cases hb : badPair info rotspeeds frequency damping p
      · simp [hb, List.append_assoc]
      · simp [hb]

/-- For a pair with a failing candidate set, the whole run leaves that
pair's amplitude and phase cells at their initial values. -/
theorem runPairs_bad_cells (info : PartInfo) (rotspeeds : List ℚ)
    (frequency damping : Table) (nModes : ℕ) (i_rs i_mode : ℕ)
    (hbad : badPair info rotspeeds frequency damping (i_rs, i_mode) = true) :
    ∀ (ps : List (ℕ × ℕ)) (st out : LinkState),
    runPairs info rotspeeds frequency damping nModes st ps = some out →
    ∀ j, get3 out.amp i_rs j i_mode = get3 st.amp i_rs j i_mode
       ∧ get3 out.phase i_rs j i_mode = get3 st.phase i_rs j i_mode := by
  intro ps
  induction ps with
  | nil =>
    intro st out h j
    rw [← Option.some.inj h]
    exact ⟨rfl, rfl⟩
  | cons p ps ih =>
    intro st out h j
    unfold runPairs at h
    cases hp : processPair info rotspeeds frequency damping nModes st p with
    | none =>
      rw [hp] at h
      exact absurd h (by simp)
    | some st1 =>
      rw [hp] at h
      have hrest := ih st1 out h j
      by_cases hpp : p = (i_rs, i_mode)
      · subst hpp
        obtain ⟨ha, hph⟩ := processPair_bad_state info rotspeeds frequency damping
          nModes st (i_rs, i_mode) st1 hp hbad
        rw [hrest.1, hrest.2, ha, hph]
        exact ⟨rfl, rfl⟩
      · have hne : i_rs ≠ p.1 ∨ i_mode ≠ p.2 := by
          rcases p with ⟨p1, p2⟩
          by_contra hcon
          push_neg at hcon
          exact hpp (by rw [hcon.1, hcon.2])
        obtain ⟨ha, hph⟩ := processPair_frame info rotspeeds frequency damping
          nModes st p st1 hp i_rs j i_mode hne
        rw [hrest.1, hrest.2, ha, hph]
        exact ⟨rfl, rfl⟩

/-- Membership in the loop's pair enumeration. -/
theorem mem_allPairs (nRs nModes i jm : ℕ) :
    (i, jm) ∈ allPairs nRs nModes ↔ i < nRs ∧ jm < nModes := by
  unfold allPairs
  simp only [List.mem_flatMap, List.mem_map, List.mem_range, Prod.mk.injEq]
  constructor
  · rintro ⟨a, ha, b, hb, hba, hbb⟩
    exact ⟨hba ▸ ha, hbb ▸ hb⟩
  · rintro ⟨hi, hj⟩
    exact ⟨i, hi, jm, hj, rfl, rfl⟩

end CampbellViewer

namespace CampbellViewer

/-! ## Default participation linkage (interfaces/bladed.py, read_cmb_data)

This is the routine the default (>= 4.9) dispatch path actually runs: it
links each mode track's participation strings positionally to the operating
points where the mode converged (frequency != -1), with no candidate
matching at all. -/

/-- One mode track of the .$CM Campbell data: its reported frequencies and
raw participation strings, one per converged operating point. -/
structure CMRow where
  freq : List ℚ
  particip_str : List (List Char)
deriving DecidableEq

/-- np.where(frequency[:, i_mode] != -1): the converged operating points. -/
def usedOperatingPoints (frequency : Table) (i_mode : ℕ) : List ℕ :=
  (List.range frequency.length).filter
    (fun op => !((frequency.getD op []).getD i_mode 0 == -1))

/-- The uncoupled-mode name list gathered from every participation chunk of
every row, deduplicated preserving first occurrence (dict.fromkeys). -/
def gatherUncoupledNames (campbell : List CMRow) : List (List Char) :=
  (campbell.flatMap (fun row => row.particip_str.flatMap
    (fun s => (splitParticipStr s).map participNameOf))).eraseDups

/-- np.zeros((a, b, c)). -/
def zerosFull (a b c : ℕ) : Arr3 :=
  List.replicate a (List.replicate b (List.replicate c 0))

/-- Write one parsed chunk of the default path: names outside the gathered
registry are reported and skipped, others are written at their index. -/
def defaultApplyChunk (names : List (List Char)) (i_mode op : ℕ)
    (ab : Arr3 × Arr3) (r : PartRecord) : Arr3 × Arr3 :=
  if r.name ∈ names then
    (set3 ab.1 op (names.indexOf r.name) i_mode r.ampl,
     set3 ab.2 op (names.indexOf r.name) i_mode r.phase)
  else ab

/-- Parse one participation string of the default path and write its
records at the positionally assigned operating point. -/
def defaultProcessStr (names : List (List Char)) (i_mode : ℕ)
    (ab : Arr3 × Arr3) (pr : List Char × ℕ) : Option (Arr3 × Arr3) :=
  match parseParticipStr pr.1 with
  | none => none
  | some records => some (records.foldl (defaultApplyChunk names i_mode pr.2) ab)

/-- Process one mode track: zip its participation strings with the
converged operating points (positional linkage) and write each string. -/
def defaultProcessMode (frequency : Table) (names : List (List Char))
    (ab : Arr3 × Arr3) (imrow : ℕ × CMRow) : Option (Arr3 × Arr3) :=
  (imrow.2.particip_str.zip (usedOperatingPoints frequency imrow.1)).foldlM
    (defaultProcessStr names imrow.1) ab

/-- BladedLinData.read_cmb_data of interfaces/bladed.py: check the mode
counts agree, gather the uncoupled names, and link every mode track
positionally; none models the early return on a count mismatch or a raised
parse error. -/
def bladed_read_cmb_data (nOps : ℕ) (frequency : Table)
    (modesCount coupledNamesCount : ℕ) (campbell : List CMRow) :
    Option (List (List Char) × Arr3 × Arr3) :=
  if coupledNamesCount ≠ modesCount then none
  else
    let names := gatherUncoupledNames campbell
    match campbell.enum.foldlM (defaultProcessMode frequency names)
        (zerosFull nOps names.length modesCount,
         zerosFull nOps names.length modesCount) with
    | none => none
    | some abp => some (names, abp.1, abp.2)

end CampbellViewer

namespace CampbellViewer

/-- C1 counterexample: the default path's linkage is positional, not by
triple intersection. With one operating point (30 rpm), one mode
(frequency 1 Hz-equivalent, damping 50 percent) and a Campbell row whose
reported rotor speed 5, frequency 100 and damping 7 are all far outside the
1e-3 tolerance of the dataset values, every candidate set is empty — the
claim demands a reported failure and an untouched zero cell — yet the
default path links the row positionally and writes amplitude 0.453. -/
theorem default_linkage_counterexample :
    ((bladed_read_cmb_data 1 [[1]] 1 1
        [⟨[100], ["Tower FA 45.3% 12.1°".data]⟩]).map
          (fun out => get3 out.2.1 0 0 0)) = some (453 / 1000)
    ∧ ((453 : ℚ) / 1000 ≠ 0)
    ∧ uniqCand ⟨[5], [100], [7], ["Tower FA 45.3% 12.1°".data]⟩
        (([30] : List ℚ).map (fun r => r * 2 * npPi / 60)) [[1]] [[50]] 0 0 = [] := by
  refine ⟨by with_unfolding_all rfl, by norm_num, by with_unfolding_all rfl⟩

/-- C1 (amended): in the legacy triple-intersection linkage routine
read_additional_cmb_data (not run by the default >= 4.9 path, which links
positionally by converged operating points), a row of the independent table
is linked to (operating point, mode) exactly when the intersection of the
three candidate sets — rows whose rotor speed, frequency and damping lie
within tolerance 1e-3 of the dataset values — is a singleton; an empty or
ambiguous intersection is reported as a linkage failure for that pair and
its amplitude and phase cells keep their zero-initialized default. -/
theorem legacy_linkage_unique_intersection (rpms : List ℚ) (nModes : ℕ)
    (frequency damping : Table) (info : PartInfo) (out : LinkState)
    (hout : read_additional_cmb_data rpms nModes frequency damping info = some out)
    (i_rs i_mode : ℕ) (hrs : i_rs < rpms.length) (hm : i_mode < nModes) :
    (((i_rs, i_mode) ∈ out.failures) ↔
        (uniqCand info (rpms.map (fun r => r * 2 * npPi / 60)) frequency damping
          i_rs i_mode).length ≠ 1)
    ∧ ((uniqCand info (rpms.map (fun r => r * 2 * npPi / 60)) frequency damping
          i_rs i_mode).length ≠ 1 →
        ∀ j, get3 out.amp i_rs j i_mode = 0 ∧ get3 out.phase i_rs j i_mode = 0) := by
  unfold read_additional_cmb_data at hout
  constructor
  · have hfail := runPairs_failures info (rpms.map (fun r => r * 2 * npPi / 60))
      frequency damping nModes (allPairs rpms.length nModes) _ out hout
    rw [hfail]
    simp only [List.nil_append]
    rw [List.mem_filter]
    constructor
    · rintro ⟨_, hbad⟩
      simpa [badPair] using hbad
    · intro hne
      refine ⟨(mem_allPairs rpms.length nModes i_rs i_mode).mpr ⟨hrs, hm⟩, ?_⟩
      simpa [badPair] using hne
  · intro hne j
    have hbad : badPair info (rpms.map (fun r => r * 2 * npPi / 60)) frequency damping
        (i_rs, i_mode) = true := by
      simpa [badPair] using hne
    have hz := runPairs_bad_cells info (rpms.map (fun r => r * 2 * npPi / 60))
      frequency damping nModes i_rs i_mode hbad
      (allPairs rpms.length nModes) _ out hout j
    exact ⟨hz.1.trans (get3_zeros3 rpms.length i_rs j i_mode),
      hz.2.trans (get3_zeros3 rpms.length i_rs j i_mode)⟩

/-- The participation_info of the C1 witness: one node matching the single
dataset point exactly. -/
def demoInfo : PartInfo :=
  ⟨[npPi], [2 * npPi], [1 / 2], ["Tower FA 45.3% 12.1°".data]⟩

/-- C1 witness: on a one-point one-mode dataset whose single Campbell node
matches exactly, the theorem instances evaluate: the pair is not a failure
(the candidate intersection is the singleton [0]). -/
theorem legacy_linkage_unique_intersection_witness :
    (((0, 0) ∈ ((read_additional_cmb_data [30] 1 [[1]] [[50]] demoInfo).getD
        emptyLinkState).failures) ↔
      (uniqCand demoInfo (([30] : List ℚ).map (fun r => r * 2 * npPi / 60))
        [[1]] [[50]] 0 0).length ≠ 1)
    ∧ ((uniqCand demoInfo (([30] : List ℚ).map (fun r => r * 2 * npPi / 60))
        [[1]] [[50]] 0 0).length ≠ 1 →
        ∀ j, get3 ((read_additional_cmb_data [30] 1 [[1]] [[50]] demoInfo).getD
            emptyLinkState).amp 0 j 0 = 0
          ∧ get3 ((read_additional_cmb_data [30] 1 [[1]] [[50]] demoInfo).getD
            emptyLinkState).phase 0 j 0 = 0) :=
  legacy_linkage_unique_intersection [30] 1 [[1]] [[50]] demoInfo
    ((read_additional_cmb_data [30] 1 [[1]] [[50]] demoInfo).getD emptyLinkState)
    (by with_unfolding_all rfl) 0 0 (by decide) (by decide)

end CampbellViewer

namespace CampbellViewer

/-! ## Database save (data_storage/data.py, LinearizationDataWrapper.save)

The save step converts each dataset's AEMode objects to their plain-text
form, but only on a deep copy (copy.deepcopy) of the dataset; the original
in-memory object must stay untouched. References into the Python heap are
modelled explicitly so the deep copy is distinguishable from aliasing. -/

/-- A mode-array cell: an in-memory AEMode object or, after the in-place
conversion on the copy, its plain-text form. -/
inductive ModeCell
  | obj (m : AEMode)
  | text (s : List Char)
deriving DecidableEq

/-- The slots of a stored dataset relevant to save: the two object arrays
and the numeric payload. -/
structure CVDataset where
  modes : List ModeCell
  participation_modes : List ModeCell
  frequency : Option Table
deriving DecidableEq

/-- The default cell used for out-of-range heap reads. -/
def emptyCVDataset : CVDataset := ⟨[], [], none⟩

/-- The Python heap of dataset objects; save manipulates references to it. -/
structure DsHeap where
  cells : List CVDataset
deriving DecidableEq

/-- copy.deepcopy: allocate a fresh copy of cell i and return its
reference. -/
def deepcopy (h : DsHeap) (i : ℕ) : DsHeap × ℕ :=
  (⟨h.cells ++ [h.cells.getD i emptyCVDataset]⟩, h.cells.length)

/-- In-place update of the dataset a reference points to. -/
def heapSet (h : DsHeap) (i : ℕ) (f : CVDataset → CVDataset) : DsHeap :=
  ⟨h.cells.set i (f (h.cells.getD i emptyCVDataset))⟩

/-- Convert one cell with AEMode.to_plain_text; none models the
AttributeError Python raises on a cell that already holds text. -/
def cellToPlainText : ModeCell → Option ModeCell
  | .obj m => some (.text m.to_plain_text)
  | .text _ => none

/-- LinearizationDataWrapper.save for one dataset: deep-copy it, convert the
copy's modes and participation_modes entries to plain text in place, and
emit the converted copy as the netCDF group. -/
def saveDataset (h : DsHeap) (i : ℕ) : Option (DsHeap × CVDataset) := do
  let hc := deepcopy h i
  let src := hc.1.cells.getD hc.2 emptyCVDataset
  let modes1 ← src.modes.mapM cellToPlainText
  let parts1 ← src.participation_modes.mapM cellToPlainText
  let h2 := heapSet hc.1 hc.2
    (fun ds => {ds with modes := modes1, participation_modes := parts1})
  pure (h2, h2.cells.getD hc.2 emptyCVDataset)

end CampbellViewer

namespace CampbellViewer

/-- The demo heap of the C10 witness: one dataset with one mode and one
participation mode. -/
def saveHeapDemo : DsHeap :=
  ⟨[⟨[ModeCell.obj ⟨"1st FW flap".data, "A".data, "FW".data, "blade".data⟩],
     [ModeCell.obj ⟨"BW edge".data, [], [], []⟩], some [[3]]⟩]⟩

/-- The heap after the C10 witness save. -/
def saveHeapDemo2 : DsHeap :=
  (saveDataset saveHeapDemo 0).getD (saveHeapDemo, emptyCVDataset) |>.1

/-- The group emitted by the C10 witness save. -/
def saveGroupDemo : CVDataset :=
  (saveDataset saveHeapDemo 0).getD (saveHeapDemo, emptyCVDataset) |>.2

/-- C10: saving converts the Mode and ParticipationMode objects to plain
text only on the deep copy: the stored dataset reference is unchanged by
the save — in particular every element of its modes and
participation_modes arrays — while the emitted group holds the plain-text
conversion of exactly those arrays and the same numeric payload. -/
theorem save_preserves_original (h : DsHeap) (i : ℕ) (hi : i < h.cells.length)
    (h2 : DsHeap) (grp : CVDataset)
    (hrun : saveDataset h i = some (h2, grp)) :
    h2.cells.get? i = h.cells.get? i
    ∧ (h2.cells.getD i emptyCVDataset).modes = (h.cells.getD i emptyCVDataset).modes
    ∧ (h2.cells.getD i emptyCVDataset).participation_modes =
        (h.cells.getD i emptyCVDataset).participation_modes
    ∧ (h.cells.getD i emptyCVDataset).modes.mapM cellToPlainText = some grp.modes
    ∧ (h.cells.getD i emptyCVDataset).participation_modes.mapM cellToPlainText =
        some grp.participation_modes
    ∧ grp.frequency = (h.cells.getD i emptyCVDataset).frequency := by
  unfold saveDataset deepcopy heapSet at hrun
  simp only [Option.bind_eq_bind, Option.bind_eq_some, Option.pure_def,
    Option.some.injEq, Prod.mk.injEq] at hrun
  obtain ⟨modes1, hm, parts1, hp, hh2, hgrp⟩ := hrun
  have hcopy : (h.cells ++ [h.cells.getD i emptyCVDataset]).getD h.cells.length
      emptyCVDataset = h.cells.getD i emptyCVDataset := by
    simp only [List.getD_eq_getElem?_getD,
      List.getElem?_append_right (Nat.le_refl h.cells.length)]
    simp
  rw [hcopy] at hm hp hh2 hgrp
  have hne : h.cells.length ≠ i := Nat.ne_of_gt hi
  have hcell : ((h.cells ++ [h.cells.getD i emptyCVDataset]).set h.cells.length
      ⟨modes1, parts1, (h.cells.getD i emptyCVDataset).frequency⟩).getD i
      emptyCVDataset = h.cells.getD i emptyCVDataset := by
    rw [List.getD_eq_getElem?_getD, List.getElem?_set_ne hne,
      List.getElem?_append_left hi, ← List.getD_eq_getElem?_getD]
  have hgrpval : ((h.cells ++ [h.cells.getD i emptyCVDataset]).set h.cells.length
      ⟨modes1, parts1, (h.cells.getD i emptyCVDataset).frequency⟩).getD
      h.cells.length emptyCVDataset =
      ⟨modes1, parts1, (h.cells.getD i emptyCVDataset).frequency⟩ := by
    rw [List.getD_eq_getElem?_getD, List.getElem?_set_self (by simp)]
    rfl
  rw [hgrpval] at hgrp
  subst hh2
  subst hgrp
  refine ⟨?_, ?_, ?_, hm, hp, rfl⟩
  · dsimp only
    rw [List.get?_eq_getElem?, List.get?_eq_getElem?, List.getElem?_set_ne hne,
      List.getElem?_append_left hi]
  · dsimp only
    rw [hcell]
  · dsimp only
    rw [hcell]

/-- C10 witness: saving a concrete one-dataset heap leaves the original
record intact and emits its plain-text conversion. -/
theorem save_preserves_original_witness :
    (saveHeapDemo2.cells.get? 0 = saveHeapDemo.cells.get? 0)
    ∧ ((saveHeapDemo2.cells.getD 0 emptyCVDataset).modes =
        (saveHeapDemo.cells.getD 0 emptyCVDataset).modes)
    ∧ ((saveHeapDemo2.cells.getD 0 emptyCVDataset).participation_modes =
        (saveHeapDemo.cells.getD 0 emptyCVDataset).participation_modes)
    ∧ ((saveHeapDemo.cells.getD 0 emptyCVDataset).modes.mapM cellToPlainText =
        some saveGroupDemo.modes)
    ∧ ((saveHeapDemo.cells.getD 0 emptyCVDataset).participation_modes.mapM
        cellToPlainText = some saveGroupDemo.participation_modes)
    ∧ (saveGroupDemo.frequency =
        (saveHeapDemo.cells.getD 0 emptyCVDataset).frequency) :=
  save_preserves_original saveHeapDemo 0 (by decide) saveHeapDemo2 saveGroupDemo
    (by with_unfolding_all rfl)

end CampbellViewer
